import Mathlib

/-!
Verification of the TrendScope sentiment aggregation and insight engine.

Shallow embedding of the core logic of `backend/sentiment/analyzer.py`,
`backend/database.py`, `backend/ai_insights.py` and the scoring loop of
`backend/main.py`.  Python floats are modelled as rationals; the Python
`round(x, 1)` (round half to even at one decimal) is modelled by `pyRound1`.
-/

namespace TrendScope

/-- Sentiment labels (models.py, `SentimentLabel`). -/
inductive SentimentLabel
  | positive
  | neutral
  | negative
deriving DecidableEq

/-- Round half to even to an integer, as the Python builtin rounding does. -/
def rhe (q : ℚ) : ℤ :=
  if q - ⌊q⌋ < 1/2 then ⌊q⌋
  else if 1/2 < q - ⌊q⌋ then ⌊q⌋ + 1
  else if 2 ∣ ⌊q⌋ then ⌊q⌋ else ⌊q⌋ + 1

/-- Model of the Python call rounding to one decimal place, half to even. -/
def pyRound1 (q : ℚ) : ℚ := (rhe (q * 10) : ℚ) / 10

/-- Counts of bull, bear, and neutral headlines (analyzer.py, `PolarityCounts`). -/
structure PolarityCounts where
  bull_count : ℕ := 0
  bear_count : ℕ := 0
  neutral_count : ℕ := 0
  filtered_count : ℕ := 0
deriving DecidableEq

/-- The bucketing loop of `SentimentAnalyzer.aggregate_sentiment`
(analyzer.py lines 137-143): score `> 0.1` counts as bull, `< -0.1` as
bear, anything else as neutral. -/
def bucketCounts : List ℚ → PolarityCounts
  | [] => {}
  | s :: rest =>
    let c := bucketCounts rest
    if s > 1/10 then { c with bull_count := c.bull_count + 1 }
    else if s < -(1/10) then { c with bear_count := c.bear_count + 1 }
    else { c with neutral_count := c.neutral_count + 1 }

/-- Model of `SentimentAnalyzer.calculate_polarity_score` (analyzer.py lines 127-130). -/
def calculate_polarity_score (bull_count bear_count : ℕ) : ℚ :=
  if bull_count + bear_count = 0 then 50
  else pyRound1 ((bull_count : ℚ) / ((bull_count : ℚ) + (bear_count : ℚ)) * 100)

/-- Model of `SentimentAnalyzer.aggregate_sentiment` (analyzer.py lines 132-157):
returns `(normalized score, overall label, counts)`. -/
def aggregate_sentiment (scores : List ℚ) : ℚ × SentimentLabel × PolarityCounts :=
  if scores = [] then (0, SentimentLabel.neutral, {})
  else
    let counts := bucketCounts scores
    let polarity_score := calculate_polarity_score counts.bull_count counts.bear_count
    let label :=
      if polarity_score > 55 then SentimentLabel.positive
      else if polarity_score < 45 then SentimentLabel.negative
      else SentimentLabel.neutral
    ((polarity_score - 50) / 50, label, counts)

/-- Trend direction strings of `get_sentiment_change` (database.py). -/
inductive Trend
  | rising
  | falling
  | stable
deriving DecidableEq

/-- The dictionary returned by `get_sentiment_change` (database.py),
restricted to the fields common to both branches. -/
structure TrendInfo where
  change : ℚ
  trend : Trend
  data_points : ℕ
deriving DecidableEq

/-- Model of `get_sentiment_change` (database.py lines 229-253), as a function of the
score column of the rows `get_trend_data` returns (ascending by time). -/
def get_sentiment_change : List ℚ → TrendInfo
  | [] => ⟨0, Trend.stable, 0⟩
  | [_] => ⟨0, Trend.stable, 1⟩
  | a :: b :: rest =>
    let change := (b :: rest).getLast (List.cons_ne_nil b rest) - a
    { change := pyRound1 change
      trend :=
        if change > 2 then Trend.rising
        else if change < -2 then Trend.falling
        else Trend.stable
      data_points := rest.length + 2 }

/-! ## Noise filter (analyzer.py, `is_noise` and `NOISE_KEYWORDS`) -/

/-- The `NOISE_KEYWORDS` list (analyzer.py lines 18-22). -/
def NOISE_KEYWORDS : List String :=
  ["opinion", "podcast", "guide", "how to", "explained", "personal finance",
   "tips", "editorial", "review", "newsletter", "subscribe", "watch live",
   "live updates", "commentary", "column", "q&a", "interview"]

/-- A word character in the sense of the regex `\b` boundary: `[A-Za-z0-9_]`. -/
def isWordChar (c : Char) : Bool := c.isAlphanum || c == '_'

/-- Word-boundary condition to the right of a match: at the end of the
text, or before a non-word character.  (Every noise keyword ends in a
letter.) -/
def rightBoundary : List Char → Bool
  | [] => true
  | c :: _ => !isWordChar c

/-- The keyword matches at the head of `cs`, with a word boundary after it. -/
def kwAt (cs : List Char) (kw : List Char) : Bool :=
  kw.isPrefixOf cs && rightBoundary (cs.drop kw.length)

/-- Word-boundary condition to the left of a match: at the start of the
text, or after a non-word character.  (Every noise keyword starts with a
letter.) -/
def boundaryB : Option Char → Bool
  | none => true
  | some p => !isWordChar p

/-- Scan of `noise_pattern.search`: look for the keyword at every position,
requiring a `\b` boundary on both sides; `prev` is the character before the
current position. -/
def scanKW (kw : List Char) : Option Char → List Char → Bool
  | _, [] => false
  | prev, c :: rest =>
    (boundaryB prev && kwAt (c :: rest) kw) || scanKW kw (some c) rest

/-- Case-insensitive whole-word containment, as the compiled
`noise_pattern` with `re.IGNORECASE` tests it (keywords are lowercase). -/
def containsWholeWord (text : String) (kw : String) : Bool :=
  scanKW kw.toList none (text.toList.map Char.toLower)

/-- Model of `SentimentAnalyzer.is_noise` (analyzer.py lines 83-85): empty text is
noise (`if not text`), otherwise noise iff the regex over `NOISE_KEYWORDS`
finds a case-insensitive whole-word match. -/
def is_noise (text : String) : Bool :=
  if text = "" then true
  else NOISE_KEYWORDS.any (fun kw => containsWholeWord text kw)

/-! ## `SentimentAnalyzer.analyze` (analyzer.py lines 87-125) -/

/-- Model of `SentimentAnalyzer.analyze`.  The external model is abstracted by two
parameters: `modelLoaded` (whether `self.model` is not `None`) and `infer`,
the outcome of tokenization + inference — `none` when that code raises (the
`except` branch), `some (confidence, label_str)` otherwise.  The Python
function never raises, which the `Except` codomain makes explicit: every
branch returns `Except.ok`. -/
def analyze (modelLoaded : Bool) (infer : Option (ℚ × String)) (text : String) :
    Except Unit (ℚ × SentimentLabel) :=
  if text = "" || text.toList.all Char.isWhitespace then
    Except.ok (0, SentimentLabel.neutral)
  else if modelLoaded = false then
    Except.ok (0, SentimentLabel.neutral)
  else
    match infer with
    | none => Except.ok (0, SentimentLabel.neutral)
    | some (confidence, label_str) =>
      if label_str = "positive" then Except.ok (confidence, SentimentLabel.positive)
      else if label_str = "negative" then Except.ok (-confidence, SentimentLabel.negative)
      else Except.ok (0, SentimentLabel.neutral)

/-! ## The scoring loop of `process_region` (main.py lines 120-152) -/

/-- The per-headline loop of `process_region`: titles flagged by `is_noise`
are skipped (they only bump `filtered_count`); every other title is scored
by the classifier `classify` and its score appended to `scores`. -/
def collectScores (classify : String → ℚ × SentimentLabel) : List String → List ℚ
  | [] => []
  | t :: rest =>
    if is_noise t then collectScores classify rest
    else (classify t).1 :: collectScores classify rest

/-! ## Keyword extraction (database.py, `get_top_keywords` lines 256-287) -/

/-- Python `str.split()` on a character list: split on runs of whitespace,
discarding empty pieces.  `acc` is the current word, reversed. -/
def splitWsAux : List Char → List Char → List (List Char)
  | [], acc => if acc.isEmpty then [] else [acc.reverse]
  | c :: rest, acc =>
    if c.isWhitespace then
      if acc.isEmpty then splitWsAux rest []
      else acc.reverse :: splitWsAux rest []
    else splitWsAux rest (c :: acc)

/-- Python `str.lower()` (ASCII case folding). -/
def pyLower (s : String) : String := String.mk (s.toList.map Char.toLower)

/-- Tokenization step of `get_top_keywords`: lowercase the title column and split it on whitespace. -/
def tokenize (title : String) : List String :=
  (splitWsAux (pyLower title).toList []).map (fun w => String.mk w)

/-- One entry of the `keywords` dictionary of `get_top_keywords`. -/
structure KeywordStat where
  word : String
  count : ℕ
  positive : ℕ
  negative : ℕ
  neutral : ℕ
deriving DecidableEq

/-- One occurrence of a word: bump its total count and the bucket of the sentiment label of its headline. -/
def bumpStat (s : KeywordStat) (lab : SentimentLabel) : KeywordStat :=
  { s with
    count := s.count + 1
    positive := if lab = SentimentLabel.positive then s.positive + 1 else s.positive
    negative := if lab = SentimentLabel.negative then s.negative + 1 else s.negative
    neutral := if lab = SentimentLabel.neutral then s.neutral + 1 else s.neutral }

/-- Record one occurrence of token `w` in the keyword table, initializing a
fresh all-zero entry when `w` is not yet present.  The table is kept in
insertion order, as a Python dict is. -/
def addWord : List KeywordStat → String → SentimentLabel → List KeywordStat
  | [], w, lab => [bumpStat ⟨w, 0, 0, 0, 0⟩ lab]
  | s :: rest, w, lab =>
    if s.word = w then bumpStat s lab :: rest
    else s :: addWord rest w lab

/-- The per-row inner loop of `get_top_keywords`: tokenize the title, skip
words of length `≤ 4` (`if len(word) > 4`), record the rest. -/
def addTitleWords (acc : List KeywordStat) (title : String) (lab : SentimentLabel) :
    List KeywordStat :=
  ((tokenize title).filter (fun w => 4 < w.length)).foldl (fun a w => addWord a w lab) acc

/-- The keyword table built by `get_top_keywords` from the
`(title, sentiment_label)` rows of the window. -/
def buildKeywords (rows : List (String × SentimentLabel)) : List KeywordStat :=
  rows.foldl (fun acc row => addTitleWords acc row.1 row.2) []

/-- Model of `get_top_keywords` (database.py lines 256-287), as a function of the
`(title, sentiment_label)` rows the SQL query returns: build the keyword
table, sort it by count descending (the Python builtin sort is stable, modelled
by the stable `insertionSort`), and keep the first `limit` entries. -/
def get_top_keywords (rows : List (String × SentimentLabel)) (limit : ℕ) : List KeywordStat :=
  (List.insertionSort (fun a b => b.count ≤ a.count) (buildKeywords rows)).take limit

/-! ## Insight engine (ai_insights.py, `generate_insights` lines 11-121) -/

/-- An insight card dictionary. -/
structure InsightCard where
  title : String
  text : String
  color : String
  icon : String
deriving DecidableEq

/-- Python `f"{x:.1f}"`: one decimal place, round half to even. -/
def fmt1 (q : ℚ) : String :=
  let n := rhe (q * 10)
  let sign := if n < 0 || (n = 0 && q < 0) then "-" else ""
  sign ++ toString (n.natAbs / 10) ++ "." ++ toString (n.natAbs % 10)

/-- Python `f"{x:+.1f}"`: as `fmt1` but with an explicit leading sign. -/
def fmtPlus1 (q : ℚ) : String :=
  let s := fmt1 q
  if s.toList.head? = some '-' then s else "+" ++ s

/-- Python `str.upper()` (ASCII case folding), for `region_id.upper()`. -/
def pyUpper (s : String) : String := String.mk (s.toList.map Char.toUpper)

/-- Python `str.title()`: the first letter of each maximal run of letters
is uppercased, the rest lowercased.  `startWord` is true when the previous
character was not a letter. -/
def pyTitleAux : Bool → List Char → List Char
  | _, [] => []
  | startWord, c :: rest =>
    if c.isAlpha then
      (if startWord then c.toUpper else c.toLower) :: pyTitleAux false rest
    else c :: pyTitleAux true rest

/-- Model of the Python title-casing method applied to the top keyword. -/
def pyTitle (s : String) : String := String.mk (pyTitleAux true s.toList)

/-- The `REGIONS` dictionary (models.py lines 66-74). -/
def REGIONS : List (String × String) :=
  [("global", "Global"), ("us", "United States"), ("eu", "European Union"),
   ("africa", "Africa"), ("egypt", "Egypt"), ("saudi", "Saudi Arabia"),
   ("middleeast", "Middle East")]

/-- Dictionary lookup with a default, over an insertion-ordered association list. -/
def dictGetD (d : List (String × String)) (key : String) (dflt : String) : String :=
  match d.find? (fun p => p.1 == key) with
  | some p => p.2
  | none => dflt

/-- Insight 1 of `generate_insights` (ai_insights.py lines 19-40): the
sentiment overview card, always appended. -/
def overviewCard (region_id : String) (current_score : ℚ) : InsightCard :=
  if current_score > 60 then
    ⟨"POSITIVE MOMENTUM",
      "Markets show strong optimism at " ++ fmt1 current_score ++
        "%. Positive sentiment is driving investor confidence across " ++
        pyUpper region_id ++ " markets.",
      "emerald", "trending-up"⟩
  else if current_score < 40 then
    ⟨"CAUTION ADVISED",
      "Sentiment at " ++ fmt1 current_score ++
        "% suggests market concerns. Economic headwinds may be affecting investor confidence.",
      "rose", "trending-down"⟩
  else
    ⟨"MARKET NEUTRALITY",
      "Markets show balanced sentiment at " ++ fmt1 current_score ++
        "%. Mixed signals from economic indicators are keeping sentiment stable.",
      "amber", "minus"⟩

/-- Insight 2 of `generate_insights` (ai_insights.py lines 42-65): the trend
card, appended only when `trend_info["data_points"] > 1`. -/
def trendCard (trend_info : TrendInfo) : List InsightCard :=
  if trend_info.data_points > 1 then
    [match trend_info.trend with
     | Trend.rising =>
       ⟨"UPWARD TREND",
         "Sentiment has improved by " ++ fmt1 |trend_info.change| ++
           "% over the last 24 hours. Optimistic momentum is building.",
         "emerald", "chevron-up"⟩
     | Trend.falling =>
       ⟨"DOWNWARD PRESSURE",
         "Sentiment declined by " ++ fmt1 |trend_info.change| ++
           "% in the past 24 hours. Watch for potential further corrections.",
         "rose", "chevron-down"⟩
     | Trend.stable =>
       ⟨"STABLE OUTLOOK",
         "Sentiment remains stable with minimal change (" ++ fmtPlus1 trend_info.change ++
           "%). Markets consolidating around current levels.",
         "blue", "minus"⟩]
  else []

/-- Insight 3 of `generate_insights` (ai_insights.py lines 67-88): the
volume card, always appended. -/
def volumeCard (headline_count : ℕ) : InsightCard :=
  if headline_count > 50 then
    ⟨"HIGH NEWS VOLUME",
      "Unusually high activity with " ++ toString headline_count ++
        " headlines. Major economic events may be driving increased coverage.",
      "purple", "file-text"⟩
  else if headline_count > 20 then
    ⟨"ACTIVE NEWS CYCLE",
      toString headline_count ++
        " headlines analyzed. Normal market activity with steady information flow.",
      "blue", "bar-chart"⟩
  else
    ⟨"LIGHT NEWS DAY",
      "Only " ++ toString headline_count ++
        " headlines found. Lower news volume may indicate quieter market conditions.",
      "slate", "clipboard"⟩

/-- Insight 4 of `generate_insights` (ai_insights.py lines 90-100): the top
keyword card, appended only when `keywords` is non-empty. -/
def keywordCard (keywords : List KeywordStat) : List InsightCard :=
  match keywords with
  | [] => []
  | top_keyword :: _ =>
    let keyword_sentiment :=
      if top_keyword.positive > top_keyword.negative then "optimistic"
      else if top_keyword.negative > top_keyword.positive then "pessimistic"
      else "neutral"
    [⟨"TOP TOPIC",
      "'" ++ pyTitle top_keyword.word ++ "' is the most discussed topic with " ++
        toString top_keyword.count ++ " mentions. Sentiment around this topic is " ++
        keyword_sentiment ++ ".",
      "cyan", "search"⟩]

/-- The `regional_insights` dictionary (ai_insights.py lines 104-112). -/
def regional_insights : List (String × String) :=
  [("global", "Global markets interconnected - watch for spillover effects from major economies."),
   ("us", "Fed policy and employment data remain key drivers for American market sentiment."),
   ("eu", "ECB decisions and energy prices continue to shape European economic outlook."),
   ("africa", "Infrastructure investment and commodity prices driving African development narrative."),
   ("egypt", "Currency stability and Suez Canal revenues crucial for Egyptian economic health."),
   ("saudi", "Vision 2030 progress and oil diversification efforts shaping Saudi market narrative."),
   ("middleeast", "Regional cooperation and energy transition policies impacting Gulf economies.")]

/-- Insight 5 of `generate_insights` (ai_insights.py lines 102-119): the
regional context card, always appended. -/
def regionalContextCard (region_id : String) : InsightCard :=
  let region_name := dictGetD REGIONS region_id region_id
  ⟨"REGIONAL CONTEXT",
    dictGetD regional_insights region_id
      ("Monitoring key economic indicators for " ++ region_name ++ "."),
    "indigo", "globe"⟩

/-- Model of `generate_insights` (ai_insights.py lines 11-121).  The two database
reads inside the Python function — `get_sentiment_change(region_id, 24)`
and `get_top_keywords(region_id, 24, 5)` — are abstracted as the
parameters `trend_info` and `keywords`; `current_label` is accepted and,
as in the source, never used.  The final `insights[:5]` is `take 5`. -/
def generate_insights (region_id : String) (current_score : ℚ) (current_label : String)
    (headline_count : ℕ) (trend_info : TrendInfo) (keywords : List KeywordStat) :
    List InsightCard :=
  ([overviewCard region_id current_score] ++ trendCard trend_info ++
    [volumeCard headline_count] ++ keywordCard keywords ++
    [regionalContextCard region_id]).take 5

/-! ## Facts about the rounding model -/

lemma rhe_intCast (n : ℤ) : rhe (n : ℚ) = n := by
  unfold rhe
  rw [Int.floor_intCast]
  norm_num

lemma le_rhe (q : ℚ) : ⌊q⌋ ≤ rhe q := by
  unfold rhe
  split_ifs <;> omega

lemma rhe_le_floor_add_one (q : ℚ) : rhe q ≤ ⌊q⌋ + 1 := by
  unfold rhe
  split_ifs <;> omega

lemma rhe_mono {x y : ℚ} (h : x ≤ y) : rhe x ≤ rhe y := by
  rcases lt_or_le ⌊x⌋ ⌊y⌋ with hf | hf
  · calc rhe x ≤ ⌊x⌋ + 1 := rhe_le_floor_add_one x
      _ ≤ ⌊y⌋ := by omega
      _ ≤ rhe y := le_rhe y
  · have hxy : ⌊x⌋ = ⌊y⌋ := le_antisymm (Int.floor_le_floor h) hf
    have hfrac : x - ⌊y⌋ ≤ y - ⌊y⌋ := by
      have := hxy ▸ Int.floor_le x
      linarith
    unfold rhe
    rw [hxy]
    split_ifs <;> first | rfl | omega | linarith

lemma rhe_le_of_le {q : ℚ} {n : ℤ} (h : q ≤ (n : ℚ)) : rhe q ≤ n := by
  have := rhe_mono h
  rwa [rhe_intCast] at this

lemma le_rhe_of_le {n : ℤ} {q : ℚ} (h : (n : ℚ) ≤ q) : n ≤ rhe q := by
  have := rhe_mono h
  rwa [rhe_intCast] at this

lemma pyRound1_mono {x y : ℚ} (h : x ≤ y) : pyRound1 x ≤ pyRound1 y := by
  unfold pyRound1
  have h10 : x * 10 ≤ y * 10 := by linarith
  have h2 : (rhe (x * 10) : ℚ) ≤ (rhe (y * 10) : ℚ) := by exact_mod_cast rhe_mono h10
  linarith

lemma pyRound1_nonneg {q : ℚ} (h : 0 ≤ q) : 0 ≤ pyRound1 q := by
  unfold pyRound1
  have h0 : ((0 : ℤ) : ℚ) ≤ q * 10 := by push_cast; linarith
  have := le_rhe_of_le h0
  have h2 : (0 : ℚ) ≤ (rhe (q * 10) : ℚ) := by exact_mod_cast this
  linarith

lemma pyRound1_le_hundred {q : ℚ} (h : q ≤ 100) : pyRound1 q ≤ 100 := by
  unfold pyRound1
  have h0 : q * 10 ≤ ((1000 : ℤ) : ℚ) := by push_cast; linarith
  have := rhe_le_of_le h0
  have h2 : (rhe (q * 10) : ℚ) ≤ 1000 := by exact_mod_cast this
  linarith

lemma pyRound1_intCast (n : ℤ) : pyRound1 (n : ℚ) = n := by
  unfold pyRound1
  have : (n : ℚ) * 10 = ((n * 10 : ℤ) : ℚ) := by push_cast; ring
  rw [this, rhe_intCast]
  push_cast
  ring

/-! ## Facts about the bucketing loop -/

lemma bucketCounts_sum (scores : List ℚ) :
    (bucketCounts scores).bull_count + (bucketCounts scores).bear_count
      + (bucketCounts scores).neutral_count = scores.length := by
  induction scores with
  | nil => rfl
  | cons s rest ih =>
    simp only [bucketCounts]
    split_ifs <;> simp only [List.length_cons] <;> omega

/-! ## Claim theorems -/

/-- C1: for every list of scores, the bull, bear and neutral counts of
`aggregate_sentiment` partition the list — they sum to its length — and the
scoring loop of `process_region` passes `aggregate_sentiment` exactly the
classifier scores of the titles that `is_noise` did not filter, so filtered
headlines never reach it. -/
theorem aggregate_sentiment_counts_partition (scores : List ℚ)
    (classify : String → ℚ × SentimentLabel) (titles : List String) :
    ((aggregate_sentiment scores).2.2.bull_count + (aggregate_sentiment scores).2.2.bear_count
        + (aggregate_sentiment scores).2.2.neutral_count = scores.length) ∧
    collectScores classify titles
      = (titles.filter (fun t => !is_noise t)).map (fun t => (classify t).1) := by
  constructor
  · unfold aggregate_sentiment
    split_ifs with h
    · subst h; rfl
    · simpa using bucketCounts_sum scores
  · induction titles with
    | nil => rfl
    | cons t rest ih =>
      simp only [collectScores, List.filter_cons]
      cases hn : is_noise t <;> simp [hn, ih]

/-- C2: when no score lands in the bull bucket and none in the bear bucket,
the internal polarity score is the no-signal default 50, the normalized
score returned by `aggregate_sentiment` is exactly 0, and the overall label
is neutral — regardless of how many neutral scores the list holds. -/
theorem aggregate_sentiment_no_signal (scores : List ℚ)
    (hbull : (bucketCounts scores).bull_count = 0)
    (hbear : (bucketCounts scores).bear_count = 0) :
    calculate_polarity_score (bucketCounts scores).bull_count
        (bucketCounts scores).bear_count = 50 ∧
    (aggregate_sentiment scores).1 = 0 ∧
    (aggregate_sentiment scores).2.1 = SentimentLabel.neutral := by
  have h50 : calculate_polarity_score (bucketCounts scores).bull_count
      (bucketCounts scores).bear_count = 50 := by
    rw [hbull, hbear]; rfl
  refine ⟨h50, ?_, ?_⟩ <;>
  · unfold aggregate_sentiment
    split_ifs with h
    · rfl
    · simp only [h50]
      norm_num

/-- Closed witness for C2 at the concrete all-neutral score list `[0, 0]`. -/
theorem aggregate_sentiment_no_signal_witness :
    (bucketCounts [(0 : ℚ), 0]).bull_count = 0 ∧ (bucketCounts [(0 : ℚ), 0]).bear_count = 0 ∧
    (aggregate_sentiment [(0 : ℚ), 0]).1 = 0 ∧
    (aggregate_sentiment [(0 : ℚ), 0]).2.1 = SentimentLabel.neutral := by
  have h1 : (bucketCounts [(0 : ℚ), 0]).bull_count = 0 := by norm_num [bucketCounts]
  have h2 : (bucketCounts [(0 : ℚ), 0]).bear_count = 0 := by norm_num [bucketCounts]
  have h := aggregate_sentiment_no_signal [(0 : ℚ), 0] h1 h2
  exact ⟨h1, h2, h.2.1, h.2.2⟩

/-- C4: on the empty score list `aggregate_sentiment` returns exactly
`(0, neutral, all-zero counts)`; it is a total function, so empty input is
handled, not an error. -/
theorem aggregate_sentiment_empty :
    aggregate_sentiment [] = (0, SentimentLabel.neutral, ⟨0, 0, 0, 0⟩) := rfl

lemma pyRound1_hundred : pyRound1 (100 : ℚ) = 100 := by
  have := pyRound1_intCast 100
  norm_num at this
  exact this

lemma calculate_polarity_score_full (b : ℕ) (hb : b ≠ 0) :
    calculate_polarity_score b 0 = 100 := by
  unfold calculate_polarity_score
  have hbq : ((b : ℚ)) ≠ 0 := Nat.cast_ne_zero.mpr hb
  rw [if_neg (by omega)]
  have : ((b : ℚ)) / ((b : ℚ) + (0 : ℕ)) * 100 = 100 := by
    push_cast
    field_simp
  rw [this, pyRound1_hundred]

lemma calculate_polarity_score_bounds (b k : ℕ) :
    0 ≤ calculate_polarity_score b k ∧ calculate_polarity_score b k ≤ 100 := by
  unfold calculate_polarity_score
  split_ifs with h
  · norm_num
  · have hpos : (0 : ℚ) < (b : ℚ) + (k : ℚ) := by
      have : 0 < b + k := Nat.pos_of_ne_zero h
      push_cast
      exact_mod_cast Nat.cast_pos.mpr this
    have hr0 : (0 : ℚ) ≤ (b : ℚ) / ((b : ℚ) + (k : ℚ)) * 100 := by positivity
    have hr100 : (b : ℚ) / ((b : ℚ) + (k : ℚ)) * 100 ≤ 100 := by
      have hle : (b : ℚ) / ((b : ℚ) + (k : ℚ)) ≤ 1 := by
        rw [div_le_one hpos]
        have : (0 : ℚ) ≤ (k : ℚ) := by positivity
        linarith
      linarith
    exact ⟨pyRound1_nonneg hr0, pyRound1_le_hundred hr100⟩

lemma calculate_polarity_score_mono_bull {b1 b2 k : ℕ} (h : b1 ≤ b2) :
    calculate_polarity_score b1 k ≤ calculate_polarity_score b2 k := by
  by_cases hk : k = 0
  · subst hk
    by_cases hb1 : b1 = 0
    · subst hb1
      by_cases hb2 : b2 = 0
      · subst hb2; exact le_refl _
      · rw [calculate_polarity_score_full b2 hb2]
        have : calculate_polarity_score 0 0 = 50 := rfl
        rw [this]
        norm_num
    · have hb2 : b2 ≠ 0 := by omega
      rw [calculate_polarity_score_full b1 hb1, calculate_polarity_score_full b2 hb2]
  · unfold calculate_polarity_score
    rw [if_neg (by omega), if_neg (by omega)]
    apply pyRound1_mono
    have hkpos : (0 : ℚ) < (k : ℚ) := by exact_mod_cast Nat.pos_of_ne_zero hk
    have hd1 : (0 : ℚ) < (b1 : ℚ) + (k : ℚ) := by positivity
    have hd2 : (0 : ℚ) < (b2 : ℚ) + (k : ℚ) := by positivity
    have hb12 : (b1 : ℚ) ≤ (b2 : ℚ) := by exact_mod_cast h
    have hdiv : (b1 : ℚ) / ((b1 : ℚ) + (k : ℚ)) ≤ (b2 : ℚ) / ((b2 : ℚ) + (k : ℚ)) := by
      rw [div_le_div_iff hd1 hd2]
      have hb1n : (0 : ℚ) ≤ (b1 : ℚ) := by positivity
      nlinarith
    linarith

lemma calculate_polarity_score_anti_bear {b k1 k2 : ℕ} (h : k1 ≤ k2) :
    calculate_polarity_score b k2 ≤ calculate_polarity_score b k1 := by
  by_cases hb : b = 0
  · subst hb
    by_cases hk1 : k1 = 0
    · subst hk1
      by_cases hk2 : k2 = 0
      · subst hk2; exact le_refl _
      · unfold calculate_polarity_score
        rw [if_neg (by omega), if_pos rfl]
        have : ((0 : ℕ) : ℚ) / (((0 : ℕ) : ℚ) + (k2 : ℚ)) * 100 = 0 := by
          push_cast; simp
        have h0 : pyRound1 (0 : ℚ) = 0 := by norm_num [pyRound1, rhe]
        rw [this, h0]
        norm_num
    · have hk2 : k2 ≠ 0 := by omega
      unfold calculate_polarity_score
      rw [if_neg (by omega), if_neg (by omega)]
      apply pyRound1_mono
      push_cast
      simp
  · unfold calculate_polarity_score
    rw [if_neg (by omega), if_neg (by omega)]
    apply pyRound1_mono
    have hbpos : (0 : ℚ) < (b : ℚ) := by exact_mod_cast Nat.pos_of_ne_zero hb
    have hd1 : (0 : ℚ) < (b : ℚ) + (k1 : ℚ) := by positivity
    have hd2 : (0 : ℚ) < (b : ℚ) + (k2 : ℚ) := by positivity
    have hk12 : (k1 : ℚ) ≤ (k2 : ℚ) := by exact_mod_cast h
    have hdiv : (b : ℚ) / ((b : ℚ) + (k2 : ℚ)) ≤ (b : ℚ) / ((b : ℚ) + (k1 : ℚ)) := by
      rw [div_le_div_iff hd2 hd1]
      nlinarith
    linarith

/-- C5: `calculate_polarity_score` is monotonically increasing in the bull
count, monotonically decreasing in the bear count, bounded to `[0, 100]`,
and equal to 50 when both counts are zero. -/
theorem calculate_polarity_score_props :
    (∀ b1 b2 k : ℕ, b1 ≤ b2 →
        calculate_polarity_score b1 k ≤ calculate_polarity_score b2 k) ∧
    (∀ b k1 k2 : ℕ, k1 ≤ k2 →
        calculate_polarity_score b k2 ≤ calculate_polarity_score b k1) ∧
    (∀ b k : ℕ, 0 ≤ calculate_polarity_score b k ∧ calculate_polarity_score b k ≤ 100) ∧
    calculate_polarity_score 0 0 = 50 :=
  ⟨fun _ _ _ h => calculate_polarity_score_mono_bull h,
   fun _ _ _ h => calculate_polarity_score_anti_bear h,
   fun b k => calculate_polarity_score_bounds b k,
   rfl⟩

/-- Closed witness for C5 at concrete counts. -/
theorem calculate_polarity_score_props_witness :
    calculate_polarity_score 1 1 ≤ calculate_polarity_score 2 1 ∧
    calculate_polarity_score 2 3 ≤ calculate_polarity_score 2 1 ∧
    (0 ≤ calculate_polarity_score 3 2 ∧ calculate_polarity_score 3 2 ≤ 100) ∧
    calculate_polarity_score 0 0 = 50 :=
  ⟨calculate_polarity_score_props.1 1 2 1 (by decide),
   calculate_polarity_score_props.2.1 2 1 3 (by decide),
   calculate_polarity_score_props.2.2.1 3 2,
   calculate_polarity_score_props.2.2.2⟩

lemma getLast_cons_append (b z : ℚ) (ms : List ℚ) :
    (b :: ms ++ [z]).getLast (List.cons_ne_nil _ _) = z := by
  simp [List.getLast_append]

/-- C3: on histories of fewer than two points the trend analyzer returns
change 0, a stable trend and the input length as `data_points`; on longer
histories the reported change is the last score minus the first, rounded to
one decimal, and the trend is rising exactly when that (unrounded) delta
exceeds 2, falling exactly when it is below -2, and stable otherwise — so a
delta of exactly 2 is stable. -/
theorem get_sentiment_change_spec :
    get_sentiment_change [] = ⟨0, Trend.stable, 0⟩ ∧
    (∀ x : ℚ, get_sentiment_change [x] = ⟨0, Trend.stable, 1⟩) ∧
    (∀ (first final : ℚ) (mid : List ℚ),
      (get_sentiment_change (first :: mid ++ [final])).change = pyRound1 (final - first) ∧
      ((get_sentiment_change (first :: mid ++ [final])).trend = Trend.rising ↔
        final - first > 2) ∧
      ((get_sentiment_change (first :: mid ++ [final])).trend = Trend.falling ↔
        final - first < -2) ∧
      ((get_sentiment_change (first :: mid ++ [final])).trend = Trend.stable ↔
        (-2 ≤ final - first ∧ final - first ≤ 2)) ∧
      (get_sentiment_change (first :: mid ++ [final])).data_points = mid.length + 2) := by
  refine ⟨rfl, fun x => rfl, fun first final mid => ?_⟩
  have key : get_sentiment_change (first :: mid ++ [final]) =
      { change := pyRound1 (final - first)
        trend :=
          if final - first > 2 then Trend.rising
          else if final - first < -2 then Trend.falling
          else Trend.stable
        data_points := mid.length + 2 } := by
    cases mid with
    | nil => rfl
    | cons m ms =>
      show get_sentiment_change (first :: m :: (ms ++ [final])) = _
      simp only [get_sentiment_change, getLast_cons_append]
      simp [List.length_append]
  rw [key]
  refine ⟨rfl, ?_, ?_, ?_, rfl⟩ <;> split_ifs with h1 h2 <;> simp <;> try constructor
  all_goals first | linarith | (intro hh; linarith) | (rintro ⟨hh1, hh2⟩; linarith) |
    (intro hh; exact ⟨by linarith, by linarith⟩)

/-- C8: the insight generator is a pure function of its six inputs — the
embedding, in which the two database reads are explicit parameters, shows
it uses no randomness and performs no I/O, so identical inputs give the
identical ordered card list — and its output never exceeds 5 cards. -/
theorem generate_insights_deterministic_and_bounded
    (region_id : String) (current_score : ℚ) (current_label : String)
    (headline_count : ℕ) (trend_info : TrendInfo) (keywords : List KeywordStat) :
    generate_insights region_id current_score current_label headline_count trend_info keywords
      = generate_insights region_id current_score current_label headline_count
          trend_info keywords ∧
    (generate_insights region_id current_score current_label headline_count
        trend_info keywords).length ≤ 5 := by
  refine ⟨rfl, ?_⟩
  unfold generate_insights
  simp [List.length_take]

/-- C10: the overview, volume and regional-context cards are appended
unconditionally, so the generator always returns between 3 and 5 cards and
the overview card is always first. -/
theorem generate_insights_core_cards
    (region_id : String) (current_score : ℚ) (current_label : String)
    (headline_count : ℕ) (trend_info : TrendInfo) (keywords : List KeywordStat) :
    3 ≤ (generate_insights region_id current_score current_label headline_count
        trend_info keywords).length ∧
    (generate_insights region_id current_score current_label headline_count
        trend_info keywords).length ≤ 5 ∧
    (generate_insights region_id current_score current_label headline_count
        trend_info keywords).head? = some (overviewCard region_id current_score) ∧
    volumeCard headline_count ∈
      generate_insights region_id current_score current_label headline_count
        trend_info keywords ∧
    regionalContextCard region_id ∈
      generate_insights region_id current_score current_label headline_count
        trend_info keywords := by
  by_cases h2 : trend_info.data_points > 1 <;>
    cases keywords with
    | nil => simp [generate_insights, trendCard, keywordCard, h2, List.take]
    | cons k ks => simp [generate_insights, trendCard, keywordCard, h2, List.take]

/-- C9 counterexample: with the model unavailable (`self.model is None`) the
claim says the failure is propagated upward, but `analyze` on the concrete
headline "Markets rally" returns the synthesized neutral result
`(0.0, neutral)` instead of an error. -/
theorem analyze_masks_failure_counterexample :
    analyze false none "Markets rally" = Except.ok (0, SentimentLabel.neutral) := by
  rfl

/-- C9 amended: when the classifier is unavailable (`self.model is None`) or
its inference raises, `analyze` does not propagate the failure — it returns
the synthesized neutral fallback `(0.0, neutral)` to the caller. -/
theorem analyze_fallback_on_failure (modelLoaded : Bool) (infer : Option (ℚ × String))
    (text : String) (h : modelLoaded = false ∨ infer = none) :
    analyze modelLoaded infer text = Except.ok (0, SentimentLabel.neutral) := by
  rcases h with h | h
  · subst h
    unfold analyze
    split_ifs <;> first | rfl | simp_all
  · subst h
    unfold analyze
    split_ifs <;> rfl

/-- Closed witness for the amended C9 at a concrete failing configuration. -/
theorem analyze_fallback_on_failure_witness :
    analyze false none "GDP shrinks sharply" = Except.ok (0, SentimentLabel.neutral) :=
  analyze_fallback_on_failure false none "GDP shrinks sharply" (Or.inl rfl)

/-! ## Correctness of the noise-filter scan -/

/-- Word-boundary condition to the left of a match inside `pre ++ kw ++ …`:
at the very start the boundary is judged against `prev` (the character just
before the scanned region, absent at the start of the text); otherwise
against the last character of `pre`. -/
def leftBoundary (prev : Option Char) (pre : List Char) : Bool :=
  match pre.getLast? with
  | none => boundaryB prev
  | some c => !isWordChar c

/-- The declarative reading of a whole-word regex match of a (lowercase)
keyword inside `text`, case-insensitively: the lowercased text splits as
`pre ++ kw ++ post` with a word boundary on both sides. -/
def WholeWordMatch (text kw : String) : Prop :=
  ∃ pre post : List Char,
    text.toList.map Char.toLower = pre ++ kw.toList ++ post ∧
    leftBoundary none pre = true ∧
    rightBoundary post = true

lemma leftBoundary_cons (prev : Option Char) (c : Char) (pre : List Char) :
    leftBoundary prev (c :: pre) = leftBoundary (some c) pre := by
  cases pre with
  | nil => rfl
  | cons p ps =>
    show leftBoundary prev (c :: p :: ps) = _
    unfold leftBoundary
    rw [List.getLast?_cons_cons]
    cases h : (p :: ps).getLast? with
    | none => simp at h
    | some d => rfl

lemma kwAt_iff (cs kw : List Char) :
    kwAt cs kw = true ↔
      ∃ post, cs = kw ++ post ∧ rightBoundary post = true := by
  unfold kwAt
  rw [Bool.and_eq_true, List.isPrefixOf_iff_prefix]
  constructor
  · rintro ⟨⟨post, rfl⟩, h2⟩
    rw [List.drop_left] at h2
    exact ⟨post, rfl, h2⟩
  · rintro ⟨post, rfl, h⟩
    exact ⟨⟨post, rfl⟩, by rwa [List.drop_left]⟩

lemma scanKW_iff (kw : List Char) (hkw : kw ≠ []) (cs : List Char) :
    ∀ prev, scanKW kw prev cs = true ↔
      ∃ pre post, cs = pre ++ kw ++ post ∧
        leftBoundary prev pre = true ∧ rightBoundary post = true := by
  induction cs with
  | nil =>
    intro prev
    simp only [scanKW, Bool.false_eq_true, false_iff]
    rintro ⟨pre, post, habs, -, -⟩
    have := congrArg List.length habs
    simp [List.length_append] at this
    cases kw with
    | nil => exact hkw rfl
    | cons a l => simp at this; omega
  | cons c rest ih =>
    intro prev
    simp only [scanKW, Bool.or_eq_true, Bool.and_eq_true, kwAt_iff, ih (some c)]
    constructor
    · rintro (⟨hb, post, heq, hpost⟩ | ⟨pre, post, heq, hpre, hpost⟩)
      · exact ⟨[], post, by simpa using heq, by simpa [leftBoundary] using hb, hpost⟩
      · exact ⟨c :: pre, post, by simp [heq], by rwa [leftBoundary_cons], hpost⟩
    · rintro ⟨pre, post, heq, hpre, hpost⟩
      cases pre with
      | nil =>
        left
        refine ⟨by simpa [leftBoundary] using hpre, post, by simpa using heq, hpost⟩
      | cons p ps =>
        right
        simp only [List.cons_append, List.cons.injEq] at heq
        exact ⟨ps, post, heq.2, by rw [heq.1, ← leftBoundary_cons prev]; exact hpre, hpost⟩

lemma containsWholeWord_iff (text kw : String) (hkw : kw.toList ≠ []) :
    containsWholeWord text kw = true ↔ WholeWordMatch text kw := by
  unfold containsWholeWord WholeWordMatch
  exact scanKW_iff kw.toList hkw (text.toList.map Char.toLower) none

/-- C7 counterexample: the claim says every whitespace-only text is noise,
but on the concrete one-space text `is_noise` returns `false` (the Python
`if not text` truthiness test only catches the empty string, and a space
matches no keyword). -/
theorem is_noise_whitespace_counterexample : is_noise " " = false := by decide

/-- C7 amended: `is_noise` returns true for the empty text and for every
text containing one of the fixed noise markers as a case-insensitive whole
word; it returns false otherwise — in particular on non-empty whitespace-only
texts — and, being a pure function, has no side effects. -/
theorem is_noise_characterization (text : String) :
    is_noise text = true ↔
      text = "" ∨ ∃ kw ∈ NOISE_KEYWORDS, WholeWordMatch text kw := by
  have hne : ∀ kw ∈ NOISE_KEYWORDS, kw.toList ≠ [] := by decide
  unfold is_noise
  split_ifs with h
  · simp [h]
  · simp only [h, false_or, List.any_eq_true]
    constructor
    · rintro ⟨kw, hmem, hc⟩
      exact ⟨kw, hmem, (containsWholeWord_iff text kw (hne kw hmem)).1 hc⟩
    · rintro ⟨kw, hmem, hw⟩
      exact ⟨kw, hmem, (containsWholeWord_iff text kw (hne kw hmem)).2 hw⟩

/-! ## Invariants of the keyword table -/

/-- Invariant of every keyword-table entry: the sentiment buckets partition
the count, and the word survived the length filter. -/
def statOK (s : KeywordStat) : Prop :=
  s.positive + s.negative + s.neutral = s.count ∧ 4 < s.word.length

lemma bumpStat_word (s : KeywordStat) (lab : SentimentLabel) :
    (bumpStat s lab).word = s.word := rfl

lemma bumpStat_statOK {s : KeywordStat} (lab : SentimentLabel) (h : statOK s) :
    statOK (bumpStat s lab) := by
  obtain ⟨h1, h2⟩ := h
  constructor
  · cases lab <;> simp [bumpStat] <;> omega
  · simpa [bumpStat_word] using h2

lemma addWord_statOK {acc : List KeywordStat} {w : String} {lab : SentimentLabel}
    (hacc : ∀ s ∈ acc, statOK s) (hw : 4 < w.length) :
    ∀ s ∈ addWord acc w lab, statOK s := by
  induction acc with
  | nil =>
    intro s hs
    simp only [addWord, List.mem_singleton] at hs
    subst hs
    exact bumpStat_statOK lab ⟨by simp, hw⟩
  | cons a rest ih =>
    intro s hs
    simp only [addWord] at hs
    split_ifs at hs with hword
    · rcases List.mem_cons.1 hs with rfl | hsr
      · exact bumpStat_statOK lab (hacc a (List.mem_cons_self a rest))
      · exact hacc s (List.mem_cons_of_mem a hsr)
    · rcases List.mem_cons.1 hs with rfl | hsr
      · exact hacc s (List.mem_cons_self s rest)
      · exact ih (fun t ht => hacc t (List.mem_cons_of_mem a ht)) s hsr

lemma foldl_addWord_statOK (lab : SentimentLabel) :
    ∀ (ws : List String) (acc : List KeywordStat), (∀ w ∈ ws, 4 < w.length) →
      (∀ s ∈ acc, statOK s) →
      ∀ s ∈ ws.foldl (fun a w => addWord a w lab) acc, statOK s := by
  intro ws
  induction ws with
  | nil => intro acc _ hacc; simpa using hacc
  | cons w ws ih =>
    intro acc hws hacc
    simp only [List.foldl_cons]
    exact ih _ (fun v hv => hws v (List.mem_cons_of_mem w hv))
      (addWord_statOK hacc (hws w (List.mem_cons_self w ws)))

lemma addTitleWords_statOK {acc : List KeywordStat} {title : String} {lab : SentimentLabel}
    (hacc : ∀ s ∈ acc, statOK s) :
    ∀ s ∈ addTitleWords acc title lab, statOK s := by
  unfold addTitleWords
  apply foldl_addWord_statOK lab _ acc _ hacc
  intro w hw
  simpa using (List.mem_filter.1 hw).2

lemma foldl_rows_statOK :
    ∀ (rows : List (String × SentimentLabel)) (acc : List KeywordStat),
      (∀ s ∈ acc, statOK s) →
      ∀ s ∈ rows.foldl (fun acc row => addTitleWords acc row.1 row.2) acc, statOK s := by
  intro rows
  induction rows with
  | nil => intro acc hacc; simpa using hacc
  | cons r rs ih =>
    intro acc hacc
    simp only [List.foldl_cons]
    exact ih _ (addTitleWords_statOK hacc)

lemma buildKeywords_statOK (rows : List (String × SentimentLabel)) :
    ∀ s ∈ buildKeywords rows, statOK s :=
  foldl_rows_statOK rows [] (by simp)

lemma addWord_mem_self (acc : List KeywordStat) (w : String) (lab : SentimentLabel) :
    ∃ s ∈ addWord acc w lab, s.word = w := by
  induction acc with
  | nil => exact ⟨bumpStat ⟨w, 0, 0, 0, 0⟩ lab, List.mem_singleton_self _, rfl⟩
  | cons a rest ih =>
    simp only [addWord]
    split_ifs with hword
    · exact ⟨bumpStat a lab, List.mem_cons_self _ _, hword⟩
    · obtain ⟨s, hs, hsw⟩ := ih
      exact ⟨s, List.mem_cons_of_mem a hs, hsw⟩

lemma addWord_mem_preserve {acc : List KeywordStat} {v : String}
    (h : ∃ s ∈ acc, s.word = v) (w : String) (lab : SentimentLabel) :
    ∃ s ∈ addWord acc w lab, s.word = v := by
  induction acc with
  | nil => simp at h
  | cons a rest ih =>
    obtain ⟨s, hs, hsv⟩ := h
    simp only [addWord]
    split_ifs with hword
    · rcases List.mem_cons.1 hs with rfl | hsr
      · exact ⟨bumpStat s lab, List.mem_cons_self _ _, hsv⟩
      · exact ⟨s, List.mem_cons_of_mem _ hsr, hsv⟩
    · rcases List.mem_cons.1 hs with rfl | hsr
      · exact ⟨s, List.mem_cons_self _ _, hsv⟩
      · obtain ⟨t, ht, htv⟩ := ih ⟨s, hsr, hsv⟩
        exact ⟨t, List.mem_cons_of_mem _ ht, htv⟩

lemma foldl_addWord_mem_preserve (lab : SentimentLabel) :
    ∀ (ws : List String) (acc : List KeywordStat) (v : String),
      (∃ s ∈ acc, s.word = v) →
      ∃ s ∈ ws.foldl (fun a w => addWord a w lab) acc, s.word = v := by
  intro ws
  induction ws with
  | nil => intro acc v h; simpa using h
  | cons w ws ih =>
    intro acc v h
    simp only [List.foldl_cons]
    exact ih _ v (addWord_mem_preserve h w lab)

lemma foldl_addWord_mem (lab : SentimentLabel) :
    ∀ (ws : List String) (acc : List KeywordStat) (w : String), w ∈ ws →
      ∃ s ∈ ws.foldl (fun a w => addWord a w lab) acc, s.word = w := by
  intro ws
  induction ws with
  | nil => simp
  | cons u us ih =>
    intro acc w hw
    simp only [List.foldl_cons]
    rcases List.mem_cons.1 hw with rfl | hwus
    · exact foldl_addWord_mem_preserve lab us _ w (addWord_mem_self acc w lab)
    · exact ih _ w hwus

lemma addTitleWords_mem {title : String} {lab : SentimentLabel} {w : String}
    (acc : List KeywordStat) (hw : w ∈ tokenize title) (hlen : 4 < w.length) :
    ∃ s ∈ addTitleWords acc title lab, s.word = w := by
  unfold addTitleWords
  apply foldl_addWord_mem
  exact List.mem_filter.2 ⟨hw, by simpa using hlen⟩

lemma addTitleWords_mem_preserve {acc : List KeywordStat} {v : String}
    (h : ∃ s ∈ acc, s.word = v) (title : String) (lab : SentimentLabel) :
    ∃ s ∈ addTitleWords acc title lab, s.word = v :=
  foldl_addWord_mem_preserve lab _ acc v h

lemma foldl_rows_mem_preserve :
    ∀ (rows : List (String × SentimentLabel)) (acc : List KeywordStat) (v : String),
      (∃ s ∈ acc, s.word = v) →
      ∃ s ∈ rows.foldl (fun acc row => addTitleWords acc row.1 row.2) acc, s.word = v := by
  intro rows
  induction rows with
  | nil => intro acc v h; simpa using h
  | cons r rs ih =>
    intro acc v h
    simp only [List.foldl_cons]
    exact ih _ v (addTitleWords_mem_preserve h r.1 r.2)

lemma foldl_rows_mem {title : String} {lab : SentimentLabel} {w : String} :
    ∀ (rows : List (String × SentimentLabel)) (acc : List KeywordStat),
      (title, lab) ∈ rows → w ∈ tokenize title → 4 < w.length →
      ∃ s ∈ rows.foldl (fun acc row => addTitleWords acc row.1 row.2) acc, s.word = w := by
  intro rows
  induction rows with
  | nil => simp
  | cons r rs ih =>
    intro acc hmem hw hlen
    simp only [List.foldl_cons]
    rcases List.mem_cons.1 hmem with heq | hmem'
    · apply foldl_rows_mem_preserve rs _ w
      rw [← heq]
      exact addTitleWords_mem acc hw hlen
    · exact ih _ hmem' hw hlen

lemma mem_get_top_keywords_mem_buildKeywords {rows : List (String × SentimentLabel)}
    {limit : ℕ} {s : KeywordStat} (hs : s ∈ get_top_keywords rows limit) :
    s ∈ buildKeywords rows := by
  unfold get_top_keywords at hs
  have h1 := List.take_subset limit _ hs
  exact (List.perm_insertionSort (fun a b => b.count ≤ a.count) (buildKeywords rows)).mem_iff.1 h1

/-- C6: every keyword stat returned by `get_top_keywords` has its positive,
negative and neutral bucket counts summing to its count, and a word of
length at least 5 (tokens of length 4 or shorter are discarded); conversely
a token of length 5 occurring in a window headline is retained — it gets an
entry in the keyword table the ranking draws from. -/
theorem get_top_keywords_spec (rows : List (String × SentimentLabel)) (limit : ℕ) :
    (∀ s ∈ get_top_keywords rows limit,
        s.positive + s.negative + s.neutral = s.count) ∧
    (∀ s ∈ get_top_keywords rows limit, 4 < s.word.length) ∧
    (∀ (title : String) (lab : SentimentLabel) (w : String),
        (title, lab) ∈ rows → w ∈ tokenize title → w.length = 5 →
        ∃ s ∈ buildKeywords rows, s.word = w) := by
  refine ⟨?_, ?_, ?_⟩
  · intro s hs
    exact (buildKeywords_statOK rows s (mem_get_top_keywords_mem_buildKeywords hs)).1
  · intro s hs
    exact (buildKeywords_statOK rows s (mem_get_top_keywords_mem_buildKeywords hs)).2
  · intro title lab w hmem hw hlen
    exact foldl_rows_mem rows [] hmem hw (by omega)

/-- Closed witness for C6 on a concrete one-row window. -/
theorem get_top_keywords_spec_witness :
    ((⟨"rates", 1, 1, 0, 0⟩ : KeywordStat) ∈
        get_top_keywords [("Rates rise again", SentimentLabel.positive)] 10) ∧
    (1 + 0 + 0 = 1) ∧ (4 < ("rates" : String).length) ∧
    (∃ s ∈ buildKeywords [("Rates rise again", SentimentLabel.positive)],
        s.word = "rates") := by
  have hmem : (⟨"rates", 1, 1, 0, 0⟩ : KeywordStat) ∈
      get_top_keywords [("Rates rise again", SentimentLabel.positive)] 10 := by decide
  refine ⟨hmem, ?_, ?_, ?_⟩
  · exact (get_top_keywords_spec [("Rates rise again", SentimentLabel.positive)] 10).1
      ⟨"rates", 1, 1, 0, 0⟩ hmem
  · exact (get_top_keywords_spec [("Rates rise again", SentimentLabel.positive)] 10).2.1
      ⟨"rates", 1, 1, 0, 0⟩ hmem
  · exact (get_top_keywords_spec [("Rates rise again", SentimentLabel.positive)] 10).2.2
      "Rates rise again" SentimentLabel.positive "rates" (by decide) (by decide) (by decide)

end TrendScope
